import Mathlib

/-!
Shallow embedding of the Ensemble-v1 sheet-music transcription pipeline
(`src/app.py`, `src/utils/image_processing.py`, `src/utils/midi_generation.py`).

Conventions of the embedding:
* Python `int` values become `ℤ`, Python `float` arithmetic is idealized as
  exact rational arithmetic on `ℚ` (division by zero is Lean's total `q / 0 = 0`;
  the corresponding Python code would raise, which no claim below depends on).
* Python `int(x)` (truncation toward zero) is `pyTrunc`, Python `//` is `Int.fdiv`.
* Python's stable `sorted` is embedded as a stable insertion sort `sortLe`
  (extensionally equal to any stable sort).
* The cv2 / YOLO collaborators (grayscale, threshold, morphology, HoughLinesP,
  the neural detector) are external: their outputs (`Option (List Seg)` for
  Hough, `List Detection` for the detector) are taken as parameters.
* Python dicts for symbols become the `Symbol` structure; `dict.get` with a
  default becomes `List.lookup ... |>.getD`.
-/

namespace EnsembleV1

/-- Python `int(q)` on a rational: truncation toward zero. -/
def pyTrunc (q : ℚ) : ℤ := q.num.tdiv q.den

/-- Does the first list occur as a leading segment of the second list? -/
def strStarts : List Char → List Char → Bool
  | [], _ => true
  | _ :: _, [] => false
  | a :: n, b :: h => a == b && strStarts n h

/-- Does the first list occur contiguously anywhere inside the second list? -/
def strHasSub (n : List Char) : List Char → Bool
  | [] => strStarts n []
  | b :: h => strStarts n (b :: h) || strHasSub n h

/-- Python's `needle in haystack` on strings. -/
def pyIn (needle hay : String) : Bool := strHasSub needle.toList hay.toList

/-- Replace every occurrence of the character `c` by the list `rep`. -/
def replaceChar (c : Char) (rep : List Char) : List Char → List Char
  | [] => []
  | a :: t => (if a == c then rep else [a]) ++ replaceChar c rep t

/-- Python `s.replace(c, rep)` where the needle is the single character `c`. -/
def pyReplaceChar (s : String) (c : Char) (rep : String) : String :=
  String.mk (replaceChar c rep.toList s.toList)

/-- Insert `a` into `l`, before the first element `b` with `le a b`.
Used to embed Python's stable ascending `sorted`. -/
def insertLe (le : α → α → Bool) (a : α) : List α → List α
  | [] => [a]
  | b :: t => if le a b then a :: b :: t else b :: insertLe le a t

/-- Stable insertion sort with comparison `le`; embeds Python `sorted`. -/
def sortLe (le : α → α → Bool) (l : List α) : List α := l.foldr (insertLe le) []

/-- A detection bounding box after conversion: `[int(x1), int(y1), int(width), int(height)]`. -/
structure Box where
  x : ℤ
  y : ℤ
  w : ℤ
  h : ℤ
deriving DecidableEq

/-- One symbol dict produced by `process_detections_enhanced`:
`{'class', 'confidence', 'box', 'pitch', 'duration'}` plus the optional
`'accidental'` key set by `apply_accidentals_to_notes`. -/
structure Symbol where
  cls : String
  confidence : ℚ
  box : Box
  pitch : String
  duration : ℚ
  accidental : Option String
deriving DecidableEq

/-- One raw YOLO detection: xyxy box, confidence, class id. -/
structure Detection where
  x1 : ℚ
  y1 : ℚ
  x2 : ℚ
  y2 : ℚ
  conf : ℚ
  classId : ℕ
deriving DecidableEq

/-- One HoughLinesP segment `(x1, y1, x2, y2)`. -/
structure Seg where
  x1 : ℤ
  y1 : ℤ
  x2 : ℤ
  y2 : ℤ
deriving DecidableEq

/-- One note event as written by `midi.addNote(track, channel, pitch, time,
duration, velocity)`: a note-on at `time` and the matching note-off at
`time + duration`. -/
structure MidiNote where
  pitch : ℤ
  time : ℚ
  duration : ℚ
  velocity : ℕ
deriving DecidableEq

/-- `MUSICAL_SYMBOL_CLASSES.get(class_id, 'unknown')` from `src/app.py`. -/
def classNameOf (id : ℕ) : String :=
  match id with
  | 0 => "whole_note" | 1 => "half_note" | 2 => "quarter_note" | 3 => "eighth_note"
  | 4 => "sixteenth_note" | 5 => "thirty_second_note" | 6 => "sixty_fourth_note"
  | 7 => "whole_rest" | 8 => "half_rest" | 9 => "quarter_rest" | 10 => "eighth_rest"
  | 11 => "sixteenth_rest" | 12 => "thirty_second_rest" | 13 => "sixty_fourth_rest"
  | 14 => "treble_clef" | 15 => "bass_clef" | 16 => "alto_clef" | 17 => "tenor_clef"
  | 18 => "sharp" | 19 => "flat" | 20 => "natural" | 21 => "double_sharp" | 22 => "double_flat"
  | 23 => "time_signature_2_4" | 24 => "time_signature_3_4" | 25 => "time_signature_4_4"
  | 26 => "time_signature_6_8" | 27 => "time_signature_9_8" | 28 => "time_signature_12_8"
  | 29 => "common_time" | 30 => "cut_time" | 31 => "bar_line" | 32 => "double_bar_line"
  | 33 => "repeat_start" | 34 => "repeat_end" | 35 => "tie" | 36 => "slur"
  | 37 => "beam" | 38 => "dot" | 39 => "staccato" | 40 => "accent"
  | 41 => "fermata" | 42 => "trill" | 43 => "mordent" | 44 => "turn"
  | 45 => "grace_note" | 46 => "chord"
  | _ => "unknown"

/-- The `SYMBOL_DURATIONS` dict from `src/app.py`. -/
def SYMBOL_DURATIONS : List (String × ℚ) :=
  [("whole_note", 4), ("half_note", 2), ("quarter_note", 1),
   ("eighth_note", 1/2), ("sixteenth_note", 1/4), ("thirty_second_note", 1/8),
   ("sixty_fourth_note", 1/16), ("whole_rest", 4), ("half_rest", 2),
   ("quarter_rest", 1), ("eighth_rest", 1/2), ("sixteenth_rest", 1/4),
   ("thirty_second_rest", 1/8), ("sixty_fourth_rest", 1/16)]

/-- Every class-name string that can reach the pipeline: the 47 table entries
plus the `'unknown'` default. -/
def validClassNames : List String :=
  (List.range 47).map classNameOf ++ ["unknown"]

/-! ## Staff line detection (`src/utils/image_processing.py`) -/

/-- The consecutive differences `[l[i+1] - l[i] for i in range(4)]`. -/
def spacingsOf (l : List ℤ) : List ℤ :=
  (List.range 4).map fun i => l.getD (i + 1) 0 - l.getD i 0

/-- `validate_staff_spacing`: exactly 5 lines whose 4 spacings each deviate
from their mean by at most 20% of the mean. -/
def validate_staff_spacing (staff_lines : List ℤ) : Bool :=
  if staff_lines.length ≠ 5 then false
  else
    let spacings := spacingsOf staff_lines
    let avg : ℚ := ((spacings.map fun z => (z : ℚ)).sum) / 4
    spacings.all fun s => decide (|(s : ℚ) - avg| ≤ avg * (1/5))

/-- The sliding-window scan in `group_staff_lines`: while at least 5 midpoints
remain, accept the window of 5 when `validate_staff_spacing` passes (advancing
by 5), otherwise advance by 1.  The fuel argument (instantiated with the list
length) makes the recursion structural. -/
def staffScanGo : ℕ → List ℤ → List (List ℤ)
  | 0, _ => []
  | fuel + 1, l =>
    if l.length < 5 then []
    else if validate_staff_spacing (l.take 5) then l.take 5 :: staffScanGo fuel (l.drop 5)
    else staffScanGo fuel l.tail

/-- `group_staff_lines(lines, image_height)`: keep the near-horizontal segments
(|y2 - y1| < 10), collapse each to its vertical midpoint `(y1 + y2) // 2`,
sort ascending, then scan for valid windows of 5.  `lines = none` embeds
HoughLinesP returning `None`.  The `image_height` parameter is unused, as in
the source. -/
def group_staff_lines (lines : Option (List Seg)) (_image_height : ℤ) : List (List ℤ) :=
  match lines with
  | none => []
  | some segs =>
    let horizontal := (segs.filter fun l => |l.y2 - l.y1| < 10).map
      fun l => (l.y1 + l.y2).fdiv 2
    let sorted := sortLe (fun a b => decide (a ≤ b)) horizontal
    staffScanGo sorted.length sorted

/-- `detect_staff_lines_enhanced`: the grayscale / threshold / morphology /
HoughLinesP steps are external cv2 collaborators whose output is the `lines`
parameter; the `try/except` that returns `[]` on an internal failure and the
`HoughLinesP = None` case are both embedded as `lines = none`. -/
def detect_staff_lines_enhanced (lines : Option (List Seg)) (image_height : ℤ) :
    List (List ℤ) :=
  group_staff_lines lines image_height

/-! ## Pitch from staff position -/

/-- The treble pitch ladder in `calculate_pitch_from_staff_position`. -/
def staffPositionPitches : List String :=
  ["F5", "E5", "D5", "C5", "B4", "A4", "G4", "F4", "E4", "D4", "C4"]

/-- Smallest element of an integer list (Python `min`; the empty case is
guarded by the callers, as in the source). -/
def listMin : List ℤ → ℤ
  | [] => 0
  | a :: t => t.foldl min a

/-- Largest element of an integer list (Python `max`). -/
def listMax : List ℤ → ℤ
  | [] => 0
  | a :: t => t.foldl max a

/-- `calculate_pitch_from_staff_position(y_pos, staff_lines)` from
`src/utils/image_processing.py`: index from the staff top in units of one
line spacing, truncated, looked up in the treble ladder, default `"C4"`. -/
def calculate_pitch_from_staff_position (y_pos : ℚ) (staff_lines : List ℤ) : String :=
  if staff_lines = [] then "C4"
  else
    let staff_top : ℚ := (listMin staff_lines : ℤ)
    let staff_bottom : ℚ := (listMax staff_lines : ℤ)
    let staff_height := staff_bottom - staff_top
    let line_spacing := staff_height / 4
    let relative_pos := (y_pos - staff_top) / line_spacing
    let pitch_index := pyTrunc relative_pos
    if 0 ≤ pitch_index ∧ pitch_index < (staffPositionPitches.length : ℤ) then
      staffPositionPitches.getD pitch_index.toNat "C4"
    else "C4"

/-- The treble ladder of `calculate_pitch_from_position` in `src/app.py`. -/
def treble_pitches : List String :=
  ["E5", "D5", "C5", "B4", "A4", "G4", "F4", "E4", "D4", "C4", "B3"]

/-- The bass ladder of `calculate_pitch_from_position` in `src/app.py`. -/
def bass_pitches : List String :=
  ["G3", "F3", "E3", "D3", "C3", "B2", "A2", "G2", "F2", "E2", "D2"]

/-- The alto ladder of `calculate_pitch_from_position` in `src/app.py`. -/
def alto_pitches : List String :=
  ["G4", "F4", "E4", "D4", "C4", "B3", "A3", "G3", "F3", "E3", "D3"]

/-- `calculate_pitch_from_position(y_pos, staff_lines, clef_type)` from
`src/app.py` (defined there but never called by the pipeline): index
`int(5 + (y - center) / spacing)` into the clef's ladder, default `"C4"`. -/
def calculate_pitch_from_position (y_pos : ℚ) (staff_lines : List ℤ)
    (clef_type : String) : String :=
  if staff_lines = [] then "C4"
  else
    let pitches :=
      if clef_type = "treble" then treble_pitches
      else if clef_type = "bass" then bass_pitches
      else if clef_type = "alto" then alto_pitches
      else treble_pitches
    let staff_center : ℚ := ((staff_lines.map fun z => (z : ℚ)).sum) / staff_lines.length
    let staff_spacing : ℚ := ((listMax staff_lines : ℤ) - (listMin staff_lines : ℤ) : ℤ) / 4
    let relative_pos := (y_pos - staff_center) / staff_spacing
    let pitch_index := pyTrunc (5 + relative_pos)
    if 0 ≤ pitch_index ∧ pitch_index < (pitches.length : ℤ) then
      pitches.getD pitch_index.toNat "C4"
    else "C4"

/-! ## Symbol building (`process_detections_enhanced`) -/

/-- The per-detection body of `process_detections_enhanced`: class name from
the 47-entry table, pitch from the staff for `'note' in symbol_class`,
duration from `SYMBOL_DURATIONS.get(symbol_class, 1.0)`, box converted to
`[int(x1), int(y1), int(width), int(height)]`. -/
def buildSymbol (staff_lines : List ℤ) (d : Detection) : Symbol :=
  let width := d.x2 - d.x1
  let height := d.y2 - d.y1
  let center_y := (d.y1 + d.y2) / 2
  let symbol_class := classNameOf d.classId
  let pitch :=
    if pyIn "note" symbol_class then
      calculate_pitch_from_staff_position center_y staff_lines
    else "C4"
  let duration := ((SYMBOL_DURATIONS.lookup symbol_class).getD 1)
  { cls := symbol_class
    confidence := d.conf
    box := ⟨pyTrunc d.x1, pyTrunc d.y1, pyTrunc width, pyTrunc height⟩
    pitch := pitch
    duration := duration
    accidental := none }

/-- `process_detections_enhanced(results, staff_lines)`: one `Symbol` per
detection, in detection order. -/
def process_detections_enhanced (dets : List Detection) (staff_lines : List ℤ) :
    List Symbol :=
  dets.map (buildSymbol staff_lines)

/-! ## Accidental binding (`apply_accidentals_to_notes`, `src/app.py`) -/

/-- Membership test `symbol['class'] in ['sharp', 'flat', 'natural']`. -/
def isAccCls (c : String) : Bool := c == "sharp" || c == "flat" || c == "natural"

/-- The inner loop of `apply_accidentals_to_notes`: walk the accidental list
keeping the accidental with the smallest horizontal distance among those with
`acc_x < note_x` and `abs(acc_y - note_y) < 20`; `acc_x`, `acc_y`, `note_x`,
`note_y` are `box[0]` and `box[1]`.  The accumulator holds the current
`(min_distance, closest_accidental)` (initially absent, i.e. `inf`/`None`);
only a strictly smaller distance replaces it. -/
def closestAccLoop (note : Symbol) : List Symbol → Option (ℤ × Symbol) →
    Option (ℤ × Symbol)
  | [], best => best
  | a :: rest, best =>
    let next :=
      if a.box.x < note.box.x ∧ |a.box.y - note.box.y| < 20 then
        let distance := note.box.x - a.box.x
        match best with
        | none => some (distance, a)
        | some (d, b) => if distance < d then some (distance, a) else some (d, b)
      else best
    closestAccLoop note rest next

/-- The mutation applied to a note once its closest accidental is found:
record the accidental's class, and for sharp/flat rewrite the pitch string
(`pitch.replace('4', '#4')` when `'4' in pitch`, else append); natural leaves
the pitch string untouched. -/
def applyAccidental (note : Symbol) (acc : Symbol) : Symbol :=
  let pitch := note.pitch
  let newPitch :=
    if acc.cls == "sharp" then
      if pyIn "4" pitch then pyReplaceChar pitch '4' "#4" else pitch ++ "#"
    else if acc.cls == "flat" then
      if pyIn "4" pitch then pyReplaceChar pitch '4' "b4" else pitch ++ "b"
    else pitch
  { note with accidental := some acc.cls, pitch := newPitch }

/-- Bind one note: mutate it when a closest accidental exists, else leave it. -/
def bindNote (accidentals : List Symbol) (note : Symbol) : Symbol :=
  match closestAccLoop note accidentals none with
  | none => note
  | some (_, acc) => applyAccidental note acc

/-- How `apply_accidentals_to_notes` transforms one retained symbol: symbols
with `'note' in class` go through binding, everything else is untouched. -/
def resolveSymbol (accidentals : List Symbol) (s : Symbol) : Symbol :=
  if pyIn "note" s.cls then bindNote accidentals s else s

/-- `apply_accidentals_to_notes(symbols)`: bind accidentals to notes, then
return the input stream with all accidental-class symbols removed (the Python
code mutates the note dicts in place and filters; the embedding maps the
mutation over the retained symbols, preserving order). -/
def apply_accidentals_to_notes (symbols : List Symbol) : List Symbol :=
  let accidentals := symbols.filter fun s => isAccCls s.cls
  (symbols.filter fun s => !(isAccCls s.cls)).map (resolveSymbol accidentals)

/-! ## Measure grouping (`group_symbols_by_measure`, `src/app.py`) -/

/-- Membership test `s['class'] in ['bar_line', 'double_bar_line']`. -/
def isBarMem (c : String) : Bool := c == "bar_line" || c == "double_bar_line"

/-- `sorted(symbols, key=lambda s: s['box'][0])`. -/
def sortSyms (symbols : List Symbol) : List Symbol :=
  sortLe (fun a b => decide (a.box.x ≤ b.box.x)) symbols

/-- The `for bar_line in bar_lines` loop of `group_symbols_by_measure`: for
each bar-line x in turn, collect the sorted symbols with
`measure_start <= x < bar_x` whose class does not contain `'bar_line'`,
emit the group when nonempty, and advance `measure_start` to `bar_x`. -/
def measureLoop (ss : List Symbol) (start : ℤ) : List ℤ → List (List Symbol)
  | [] => []
  | bx :: rest =>
    let m := ss.filter fun s =>
      (decide (start ≤ s.box.x) && decide (s.box.x < bx)) && !(pyIn "bar_line" s.cls)
    (if m = [] then [] else [m]) ++ measureLoop ss bx rest

/-- `group_symbols_by_measure(symbols, staff_lines)`: sort by x; with no
bar lines return the single measure `[sorted_symbols]`; otherwise run the
bar-line loop from `measure_start = 0` and append the final group of
non-bar symbols with `x > bar_lines[-1]['box'][0]` when nonempty.  The
`staff_lines` parameter is unused, as in the source. -/
def group_symbols_by_measure (symbols : List Symbol) (_staff_lines : List (List ℤ)) :
    List (List Symbol) :=
  let sorted_symbols := sortSyms symbols
  let bar_lines := sorted_symbols.filter fun s => isBarMem s.cls
  match bar_lines.getLast? with
  | none => [sorted_symbols]
  | some lastBar =>
    let ms := measureLoop sorted_symbols 0 (bar_lines.map fun s => s.box.x)
    let final_symbols := sorted_symbols.filter fun s =>
      decide (lastBar.box.x < s.box.x) && !(pyIn "bar_line" s.cls)
    ms ++ (if final_symbols = [] then [] else [final_symbols])

/-! ## MIDI generation (`src/utils/midi_generation.py`) -/

/-- The `note_map` dict of `pitch_to_midi_number`. -/
def note_map : List (String × ℤ) :=
  [("C", 0), ("C#", 1), ("Db", 1), ("D", 2), ("D#", 3), ("Eb", 3),
   ("E", 4), ("F", 5), ("F#", 6), ("Gb", 6), ("G", 7), ("G#", 8),
   ("Ab", 8), ("A", 9), ("A#", 10), ("Bb", 10), ("B", 11)]

/-- Python `int(c)` on a single character: its decimal value for an ASCII
digit, failure otherwise (the failure is caught by the surrounding
`try/except`, which returns 60). -/
def digitVal (c : Char) : Option ℤ :=
  if c.isDigit then some ((c.toNat : ℤ) - 48) else none

/-- `max(0, min(127, n))`. -/
def clampMidi (n : ℤ) : ℤ := max 0 (min 127 n)

/-- `pitch_to_midi_number(pitch)`: parse a 2- or 3-character pitch string into
`(note, octave)`, map via `note_map.get(note, 0)`, compute
`(octave + 1) * 12 + offset` and clamp into `[0, 127]`; any other length, or a
non-digit octave character, yields the default 60. -/
def pitch_to_midi_number (pitch : String) : ℤ :=
  match pitch.toList with
  | [a, b] =>
    match digitVal b with
    | none => 60
    | some octave => clampMidi ((octave + 1) * 12 + (note_map.lookup (String.mk [a])).getD 0)
  | [a, b, c] =>
    match digitVal c with
    | none => 60
    | some octave => clampMidi ((octave + 1) * 12 + (note_map.lookup (String.mk [a, b])).getD 0)
  | _ => 60

/-- The note-writing loop of `generate_midi_file`: starting from
`current_time = 0`, each symbol with `'note' in class` contributes an
`addNote` event (note-on at the cursor, note-off after the cursor advances by
its duration, velocity 100) and advances the cursor; every other symbol is
skipped. -/
def midiLoop (current_time : ℚ) : List Symbol → List MidiNote
  | [] => []
  | s :: rest =>
    if pyIn "note" s.cls then
      { pitch := pitch_to_midi_number s.pitch
        time := current_time
        duration := s.duration
        velocity := 100 } :: midiLoop (current_time + s.duration) rest
    else midiLoop current_time rest

/-- The event sequence written by `generate_midi_file(symbols, path, bpm)`
(the `MIDIFile` container, tempo and track-name meta events, and the file I/O
are the external `midiutil` collaborator). -/
def generate_midi_events (symbols : List Symbol) : List MidiNote :=
  midiLoop 0 symbols

/-! ## The analysis pipeline slice of `analyze_sheet_music` (`src/app.py`) -/

/-- The mock staff system substituted when no staff lines are detected. -/
def fallbackStaff : List ℤ := [100, 150, 200, 250, 300]

/-- The fallback step of `analyze_sheet_music`:
`if not staff_lines: staff_lines = [[100, 150, 200, 250, 300]]`. -/
def staff_lines_used (detected : List (List ℤ)) : List (List ℤ) :=
  if detected = [] then [fallbackStaff] else detected

/-- The fields of the success result of `analyze_sheet_music` that the
embedded core computes. -/
structure AnalysisResult where
  status : String
  measuresCount : ℕ
  symbolsDetected : ℕ
  events : List MidiNote
deriving DecidableEq

/-- The post-detection core of `analyze_sheet_music`: substitute the fallback
staff when detection found none, build symbols against `staff_lines[0]`,
apply accidentals, group into measures, generate the MIDI events, and return
the success result.  Image decoding and the YOLO predict call are external
collaborators; the embedded core is total, so no failure path is reachable
from these inputs. -/
def analyze_sheet_music_core (detected : List (List ℤ)) (dets : List Detection) :
    AnalysisResult :=
  let staff_lines := staff_lines_used detected
  let symbols0 := process_detections_enhanced dets (staff_lines.headD [])
  let symbols := apply_accidentals_to_notes symbols0
  let measures := group_symbols_by_measure symbols staff_lines
  { status := "success"
    measuresCount := measures.length
    symbolsDetected := symbols.length
    events := generate_midi_events symbols }

/-! ## Spec-side definitions

Each definition below is written from the specification's words (never from
the code), for comparison with the embedded source functions. -/

/-- Modelled from the spec (§4.6): the MIDI cursor semantics the spec claims,
in which every note-like symbol emits an event and advances the cursor and
every rest symbol advances the cursor by its duration without emitting. -/
def specMidiEventsC2 (current_time : ℚ) : List Symbol → List MidiNote
  | [] => []
  | s :: rest =>
    if pyIn "note" s.cls then
      { pitch := pitch_to_midi_number s.pitch
        time := current_time
        duration := s.duration
        velocity := 100 } :: specMidiEventsC2 (current_time + s.duration) rest
    else if pyIn "rest" s.cls then specMidiEventsC2 (current_time + s.duration) rest
    else specMidiEventsC2 current_time rest

/-- Modelled from the amended claim C2: only note-like symbols produce events
and advance the cursor; rests and all other symbols are skipped without
advancing it — so the track is determined by the note-like subsequence alone,
each event at the cumulative duration of the preceding note-like symbols. -/
def noteOnlyTrack (current_time : ℚ) : List Symbol → List MidiNote
  | [] => []
  | n :: rest =>
    { pitch := pitch_to_midi_number n.pitch
      time := current_time
      duration := n.duration
      velocity := 100 } :: noteOnlyTrack (current_time + n.duration) rest

/-- Rounding to the nearest integer (floor of `q + 1/2`), used to model the
spec's `round`; the spec's inputs in the claims below are never exact halves,
where rounding conventions differ. -/
def specRound (q : ℚ) : ℤ := (q + 1/2).num.fdiv (q + 1/2).den

/-- Modelled from the spec (§4.2 / claim C4): pitch from
`index = round(5 + (y - center)/spacing)` with `center = mean(staffLineYs)`,
`spacing = (max - min)/4`, looked up in the clef-specific 11-entry ladder,
default middle C when the staff is empty or the index is out of range. -/
def pitchPerSpecFormula (y : ℚ) (staff : List ℤ) (clef : String) : String :=
  if staff = [] then "C4"
  else
    let ladder :=
      if clef = "bass" then bass_pitches
      else if clef = "alto" then alto_pitches
      else treble_pitches
    let center : ℚ := ((staff.map fun z => (z : ℚ)).sum) / staff.length
    let spacing : ℚ := ((listMax staff - listMin staff : ℤ) : ℚ) / 4
    let idx := specRound (5 + (y - center) / spacing)
    if 0 ≤ idx ∧ idx < 11 then ladder.getD idx.toNat "C4" else "C4"

/-- Modelled from the amended claim C4: pitch from
`index = trunc((y - min(staffLineYs)) / ((max - min)/4))` (truncation toward
zero) into the fixed treble ladder `F5..C4`, default `"C4"` when the staff is
empty or the index is outside `[0, 11)`. -/
def pitchPerAmendedC4 (y : ℚ) (staff : List ℤ) : String :=
  if staff = [] then "C4"
  else
    let spacing : ℚ := ((listMax staff - listMin staff : ℤ) : ℚ) / 4
    let idx := pyTrunc ((y - (listMin staff : ℤ)) / spacing)
    if 0 ≤ idx ∧ idx < 11 then staffPositionPitches.getD idx.toNat "C4" else "C4"

/-- The mean of a staff system's line coordinates. -/
def staffMean (s : List ℤ) : ℚ := ((s.map fun z => (z : ℚ)).sum) / s.length

/-- Modelled from the spec (§4.2 / claim C5): the staff system nearest to a
vertical position, by distance from the system's mean line coordinate. -/
def nearestStaffTo (y : ℚ) : List (List ℤ) → List ℤ
  | [] => []
  | s :: rest =>
    rest.foldl (fun best sys => if |y - staffMean sys| < |y - staffMean best| then sys else best) s

/-- Modelled from the spec (claim C6): the standard chromatic semitone offset
of a pitch letter, with sharp `+1` and flat `-1`. -/
def specSemitoneOffset (letter : Char) (accidental : Option Char) : ℤ :=
  (match letter with
   | 'C' => 0 | 'D' => 2 | 'E' => 4 | 'F' => 5 | 'G' => 7 | 'A' => 9 | 'B' => 11
   | _ => 0) +
  (match accidental with
   | some '#' => 1
   | some 'b' => -1
   | _ => 0)

/-- Modelled from the spec (claim C6): `(octave + 1) * 12 + semitoneOffset`,
clamped into `[0, 127]`. -/
def specPitchMidi (letter : Char) (accidental : Option Char) (octave : ℤ) : ℤ :=
  clampMidi ((octave + 1) * 12 + specSemitoneOffset letter accidental)

/-- Modelled from the spec (claim C9): the vertical center of a symbol's box. -/
def centerYQ (s : Symbol) : ℚ := (s.box.y : ℚ) + (s.box.h : ℚ) / 2

/-! ## Claim C2 — MIDI time cursor -/

/-- A quarter rest at x = 80. -/
def c2rest : Symbol := ⟨"quarter_rest", 9/10, ⟨80, 50, 20, 25⟩, "C4", 1, none⟩

/-- A quarter note E4 at x = 100. -/
def c2note : Symbol := ⟨"quarter_note", 9/10, ⟨100, 100, 20, 25⟩, "E4", 1, none⟩

/-- Claim C2 is false on the code: on `[quarter_rest, quarter_note]` the
encoder emits the note-on at cursor 0, while the claimed semantics (rests
advance the cursor by their duration) places it at cursor 1 — the rest is
skipped without advancing the cursor. -/
theorem C2_counterexample :
    (generate_midi_events [c2rest, c2note]).map (fun e => e.time) = [0]
    ∧ (specMidiEventsC2 0 [c2rest, c2note]).map (fun e => e.time) = [1]
    ∧ generate_midi_events [c2rest, c2note] ≠ specMidiEventsC2 0 [c2rest, c2note] := by
  with_unfolding_all decide

/-- The cursor lemma behind amended claim C2, generalized over the starting
cursor: the emitted track is exactly the track of the note-like subsequence. -/
theorem midiLoop_eq_noteOnlyTrack (symbols : List Symbol) :
    ∀ t : ℚ, midiLoop t symbols = noteOnlyTrack t (symbols.filter fun s => pyIn "note" s.cls) := by
  induction symbols with
  | nil => intro t; rfl
  | cons s rest ih =>
    intro t
    by_cases h : pyIn "note" s.cls = true
    · simp [midiLoop, h, List.filter_cons, noteOnlyTrack, ih]
    · simp only [Bool.not_eq_true] at h
      simp [midiLoop, h, List.filter_cons, ih]

/-- Amended claim C2: the encoder maintains a cursor starting at 0 beats;
every note-like symbol emits a note-on at the cursor with velocity 100 and a
note-off after the cursor advances by its duration, and every other symbol —
rests included — is skipped entirely, neither emitting an event nor advancing
the cursor: the output equals the track of the note-like subsequence alone. -/
theorem C2_amended (symbols : List Symbol) :
    generate_midi_events symbols
      = noteOnlyTrack 0 (symbols.filter fun s => pyIn "note" s.cls) :=
  midiLoop_eq_noteOnlyTrack symbols 0

/-! ## Claim C3 — accidental pitch arithmetic -/

/-- A sharp to the left of the C3 note, same box top. -/
def c3sharp : Symbol := ⟨"sharp", 8/10, ⟨50, 100, 10, 30⟩, "C4", 1, none⟩

/-- A quarter note with pitch E4. -/
def c3noteE4 : Symbol := ⟨"quarter_note", 9/10, ⟨100, 100, 20, 25⟩, "E4", 1, none⟩

/-- A natural to the left of the C3 note, same box top. -/
def c3natural : Symbol := ⟨"natural", 8/10, ⟨50, 100, 10, 30⟩, "C4", 1, none⟩

/-- A quarter note already carrying a sharp alteration in its pitch string. -/
def c3noteCs4 : Symbol := ⟨"quarter_note", 9/10, ⟨100, 100, 20, 25⟩, "C#4", 1, none⟩

/-- Claim C3 is right and the code is wrong: binding a sharp to an E4 note
rewrites the pitch *string* to `"E#4"` (substring substitution), whose own
MIDI mapping is the unmapped-name default 60 rather than one semitone above
E4 (64 + 1 = 65 = `specPitchMidi 'E' (some '#') 4`); and binding a natural
records it but leaves a prior alteration (`"C#4"`) in place instead of
clearing it. -/
theorem C3_code_bug :
    (apply_accidentals_to_notes [c3sharp, c3noteE4]).map (fun s => (s.pitch, s.accidental))
        = [("E#4", some "sharp")]
    ∧ pitch_to_midi_number "E#4" = 60
    ∧ pitch_to_midi_number "E4" = 64
    ∧ specPitchMidi 'E' (some '#') 4 = 65
    ∧ (apply_accidentals_to_notes [c3natural, c3noteCs4]).map (fun s => (s.pitch, s.accidental))
        = [("C#4", some "natural")] := by
  with_unfolding_all decide

/-! ## Claim C4 — pitch-from-position formula -/

/-- A quarter-note detection whose box has vertical center 230. -/
def c4det : Detection := ⟨150, 215, 170, 245, 85/100, 2⟩

/-- Claim C4 is false on the code: for a note detection centered at y = 230
on the staff `[100,150,200,250,300]`, the pipeline assigns `"D5"`
(top-anchored index `int(2.6) = 2` in the ladder `F5..C4`), while the claimed
formula `round(5 + (y - center)/spacing)` gives index `round(5.6) = 6`, i.e.
`"F4"`; even the unused `calculate_pitch_from_position` truncates instead of
rounding and gives `"G4"`. -/
theorem C4_counterexample :
    (buildSymbol fallbackStaff c4det).pitch = "D5"
    ∧ pitchPerSpecFormula 230 fallbackStaff "treble" = "F4"
    ∧ calculate_pitch_from_position 230 fallbackStaff "treble" = "G4"
    ∧ (buildSymbol fallbackStaff c4det).pitch ≠ pitchPerSpecFormula 230 fallbackStaff "treble" := by
  with_unfolding_all decide

/-- The pipeline's pitch function agrees everywhere with the amended claim's
formula. -/
theorem calc_pitch_eq_amendedC4 (y : ℚ) (staff : List ℤ) :
    calculate_pitch_from_staff_position y staff = pitchPerAmendedC4 y staff := by
  unfold calculate_pitch_from_staff_position pitchPerAmendedC4
  by_cases h : staff = []
  · simp [h]
  · have hc : ((listMax staff - listMin staff : ℤ) : ℚ)
        = ((listMax staff : ℤ) : ℚ) - ((listMin staff : ℤ) : ℚ) := by push_cast; ring
    simp only [h, if_false, hc]
    norm_num [staffPositionPitches]

/-- Amended claim C4: every note-like detection's assigned pitch is computed
from the vertical center of its box as
`index = trunc((y - min(staffLineYs)) / ((max - min)/4))` (truncation toward
zero, not rounding, anchored at the staff top, not its center), looked up in
the fixed treble ladder `F5..C4` regardless of clef, with default `"C4"` when
the staff is empty or the index falls outside the ladder. -/
theorem C4_amended (staff : List ℤ) (dets : List Detection) (d : Detection)
    (hd : d ∈ dets) (hn : pyIn "note" (classNameOf d.classId) = true) :
    buildSymbol staff d ∈ process_detections_enhanced dets staff
    ∧ (buildSymbol staff d).pitch = pitchPerAmendedC4 ((d.y1 + d.y2) / 2) staff := by
  refine ⟨List.mem_map_of_mem _ hd, ?_⟩
  simp only [buildSymbol, hn, if_true, calc_pitch_eq_amendedC4]

/-- Witness for C4: the amended formula evaluated at the concrete C4
detection on the fallback staff. -/
theorem C4_amended_witness :
    buildSymbol fallbackStaff c4det ∈ process_detections_enhanced [c4det] fallbackStaff
    ∧ (buildSymbol fallbackStaff c4det).pitch
        = pitchPerAmendedC4 ((c4det.y1 + c4det.y2) / 2) fallbackStaff :=
  C4_amended fallbackStaff [c4det] c4det (by with_unfolding_all decide)
    (by with_unfolding_all decide)

/-! ## Claim C5 — nearest staff system -/

/-- Two detected staff systems, one around y = 200 and one around y = 600. -/
def c5systems : List (List ℤ) := [[100, 150, 200, 250, 300], [500, 550, 600, 650, 700]]

/-- A quarter-note detection centered at y = 600, inside the second system. -/
def c5det : Detection := ⟨150, 600, 170, 600, 85/100, 2⟩

/-- Claim C5 is false on the code: with two staff systems, a note detection
centered inside the second system is still assigned its pitch from the first
system (`"C4"`), not from the nearest system (`"D5"`). -/
theorem C5_counterexample :
    (process_detections_enhanced [c5det] ((staff_lines_used c5systems).headD [])).map
        (fun s => s.pitch) = ["C4"]
    ∧ nearestStaffTo 600 c5systems = [500, 550, 600, 650, 700]
    ∧ calculate_pitch_from_staff_position 600 (nearestStaffTo 600 c5systems) = "D5"
    ∧ ¬ (process_detections_enhanced [c5det] ((staff_lines_used c5systems).headD [])).map
          (fun s => s.pitch)
        = [calculate_pitch_from_staff_position 600 (nearestStaffTo 600 c5systems)] := by
  with_unfolding_all decide

/-- Amended claim C5: every detection is matched against the *first* staff
system of the detected list (`staff_lines[0]`; the fallback staff when the
list is empty), regardless of the detection's vertical position: the whole
analysis is unchanged when all systems but the first are discarded, and each
built symbol's pitch is computed against that first system. -/
theorem C5_amended (detected : List (List ℤ)) (dets : List Detection)
    (hne : detected ≠ []) :
    analyze_sheet_music_core detected dets
      = analyze_sheet_music_core [detected.headD []] dets
    ∧ process_detections_enhanced dets ((staff_lines_used detected).headD [])
      = dets.map (buildSymbol (detected.headD [])) := by
  have h1 : staff_lines_used detected = detected := by
    simp [staff_lines_used, hne]
  have h2 : staff_lines_used [detected.headD []] = [detected.headD []] := by
    simp [staff_lines_used]
  constructor
  · simp only [analyze_sheet_music_core, h1, h2]
    cases detected with
    | nil => exact absurd rfl hne
    | cons a t => rfl
  · rw [h1]; rfl

/-- Witness for C5: the amended statement at the two concrete systems. -/
theorem C5_amended_witness :
    analyze_sheet_music_core c5systems [c5det]
      = analyze_sheet_music_core [c5systems.headD []] [c5det]
    ∧ process_detections_enhanced [c5det] ((staff_lines_used c5systems).headD [])
      = [c5det].map (buildSymbol (c5systems.headD [])) :=
  C5_amended c5systems [c5det] (by with_unfolding_all decide)

/-! ## Claim C6 — pitch string to MIDI number -/

/-- Claim C6 is false on the code: the well-formed pitch `"B#3"` (letter B,
sharp, octave 3) should map to `(3+1)*12 + 12 = 60` but maps to 48 because
`"B#"` is missing from `note_map` and defaults to offset 0; and the malformed
pitch `"H5"` should yield the documented default 60 but yields 72. -/
theorem C6_counterexample :
    pitch_to_midi_number "B#3" = 48
    ∧ specPitchMidi 'B' (some '#') 3 = 60
    ∧ pitch_to_midi_number "B#3" ≠ specPitchMidi 'B' (some '#') 3
    ∧ pitch_to_midi_number "H5" = 72
    ∧ pitch_to_midi_number "H5" ≠ 60 := by
  with_unfolding_all decide

/-- Amended claim C6: for every pitch whose note name is one of the 17 keys
of `note_map` followed by one ASCII octave digit, the result is
`(octave + 1) * 12 + offset` clamped into `[0, 127]` (so C4 ↦ 60, A4 ↦ 69,
C#4 ↦ 61, B3 ↦ 59); a pitch string whose length is neither 2 nor 3
characters yields the default 60.  (Names outside the 17 keys — such as
`B#`, `Cb` or a malformed letter — are *not* defaulted to 60: they get
semitone offset 0.) -/
theorem C6_amended :
    (∀ nm ∈ note_map, ∀ d ∈ List.range 10,
        pitch_to_midi_number (nm.1.push (Char.ofNat (48 + d)))
          = clampMidi (((d : ℤ) + 1) * 12 + nm.2))
    ∧ ∀ p : String, p.toList.length ≠ 2 → p.toList.length ≠ 3 →
        pitch_to_midi_number p = 60 := by
  constructor
  · with_unfolding_all decide
  · intro p h2 h3
    unfold pitch_to_midi_number
    match hl : p.toList with
    | [] => rfl
    | [a] => rfl
    | [a, b] => exact absurd (show p.toList.length = 2 by rw [hl]; rfl) h2
    | [a, b, c] => exact absurd (show p.toList.length = 3 by rw [hl]; rfl) h3
    | a :: b :: c :: e :: t => rfl

/-- Witness for C6: `"C4"` through the amended statement gives 60, and a
length-1 string gives the default. -/
theorem C6_amended_witness :
    pitch_to_midi_number ((("C" : String)).push (Char.ofNat (48 + 4)))
      = clampMidi (((4 : ℤ) + 1) * 12 + 0)
    ∧ pitch_to_midi_number "C" = 60 :=
  ⟨C6_amended.1 ("C", 0) (by decide) 4 (by decide),
   C6_amended.2 "C" (by with_unfolding_all decide) (by with_unfolding_all decide)⟩

/-! ## Claim C8 — soft failure and fallback staff -/

/-- Claim C8: staff detection never hard-errors — the no-detectable-lines
cases (`HoughLinesP` returning `None`, an internal cv2 failure caught by the
`try/except`, or no acceptable window) yield `[]`; the caller then
substitutes the synthetic staff `[100, 150, 200, 250, 300]` and the analysis
completes with a success result for every detection list. -/
theorem C8_soft_fail (ih : ℤ) (dets : List Detection) :
    detect_staff_lines_enhanced none ih = []
    ∧ detect_staff_lines_enhanced (some []) ih = []
    ∧ staff_lines_used [] = [fallbackStaff]
    ∧ (analyze_sheet_music_core [] dets).status = "success" :=
  ⟨rfl, rfl, rfl, rfl⟩

/-! ## Claim C7 — staff spacing invariant -/

/-- The mean of a candidate window's four spacings, as a rational. -/
def spacingAvg (g : List ℤ) : ℚ := ((spacingsOf g).map fun z => (z : ℚ)).sum / 4

/-- Every group emitted by the sliding-window scan passed validation. -/
theorem mem_staffScanGo {g : List ℤ} :
    ∀ (fuel : ℕ) (l : List ℤ), g ∈ staffScanGo fuel l → validate_staff_spacing g = true := by
  intro fuel
  induction fuel with
  | zero => intro l h; simp [staffScanGo] at h
  | succ n ih =>
    intro l h
    rw [staffScanGo] at h
    by_cases h5 : l.length < 5
    · simp [h5] at h
    · by_cases hv : validate_staff_spacing (l.take 5)
      · simp only [h5, if_false, hv, if_true, List.mem_cons] at h
        rcases h with rfl | h
        · exact hv
        · exact ih _ h
      · simp only [h5, if_false, hv, Bool.false_eq_true] at h
        exact ih _ h

/-- Claim C7: every staff system produced by the grouping step has exactly 5
line coordinates, and each of its four consecutive spacings deviates from
their mean by at most 20% of that mean. -/
theorem C7_staff_invariant (lines : Option (List Seg)) (ih : ℤ) (g : List ℤ)
    (hg : g ∈ group_staff_lines lines ih) :
    g.length = 5
    ∧ ∀ s ∈ spacingsOf g, |(s : ℚ) - spacingAvg g| ≤ spacingAvg g * (1/5) := by
  have hv : validate_staff_spacing g = true := by
    cases lines with
    | none => simp [group_staff_lines] at hg
    | some segs => exact mem_staffScanGo _ _ hg
  unfold validate_staff_spacing at hv
  by_cases h5 : g.length ≠ 5
  · simp [h5] at hv
  · push_neg at h5
    refine ⟨h5, ?_⟩
    simp only [h5, ne_eq, not_true_eq_false, if_false, List.all_eq_true] at hv
    intro s hs
    exact of_decide_eq_true (hv s hs)

/-- Five clean horizontal segments giving midpoints `[100,150,200,250,300]`. -/
def c7segs : List Seg :=
  [⟨0, 100, 300, 100⟩, ⟨0, 150, 300, 150⟩, ⟨0, 200, 300, 200⟩,
   ⟨0, 250, 300, 250⟩, ⟨0, 300, 300, 300⟩]

/-- Witness for C7: the invariant holds on the system grouped from the
concrete segments. -/
theorem C7_staff_invariant_witness :
    ([100, 150, 200, 250, 300] : List ℤ).length = 5
    ∧ ∀ s ∈ spacingsOf [100, 150, 200, 250, 300],
        |(s : ℚ) - spacingAvg [100, 150, 200, 250, 300]|
          ≤ spacingAvg [100, 150, 200, 250, 300] * (1/5) :=
  C7_staff_invariant (some c7segs) 400 [100, 150, 200, 250, 300]
    (by with_unfolding_all decide)

/-! ## Claim C9 — notes with no nearby accidental are unchanged -/

/-- A short note box (height 4) whose top is at y = 100. -/
def c9note : Symbol := ⟨"quarter_note", 1, ⟨100, 100, 20, 4⟩, "E4", 1, none⟩

/-- A tall sharp box (height 80) whose top is at y = 90: its top is within 20
pixels of the note's top, but the vertical centers are 28 pixels apart. -/
def c9sharp : Symbol := ⟨"sharp", 1, ⟨50, 90, 10, 80⟩, "C4", 1, none⟩

/-- Claim C9 is false on the code: no accidental of this input lies strictly
left of the note with *vertical centers* differing by less than 20 px (the
only accidental's center is 28 px away), yet the note does not come out
unchanged — the binder compares the boxes' top y coordinates (10 px apart)
and binds the sharp. -/
theorem C9_counterexample :
    (∀ a ∈ [c9sharp, c9note], isAccCls a.cls = true →
        ¬(a.box.x < c9note.box.x ∧ |centerYQ a - centerYQ c9note| < 20))
    ∧ apply_accidentals_to_notes [c9sharp, c9note] ≠ [c9note]
    ∧ (apply_accidentals_to_notes [c9sharp, c9note]).map (fun s => (s.pitch, s.accidental))
        = [("E#4", some "sharp")] := by
  with_unfolding_all decide

/-- When no accidental in the list satisfies the binder's window for `note`,
the scan leaves its accumulator untouched. -/
theorem closestAccLoop_none (note : Symbol) :
    ∀ accs : List Symbol,
      (∀ a ∈ accs, ¬(a.box.x < note.box.x ∧ |a.box.y - note.box.y| < 20)) →
      ∀ best, closestAccLoop note accs best = best := by
  intro accs
  induction accs with
  | nil => intro _ best; rfl
  | cons a rest ih =>
    intro h best
    rw [closestAccLoop]
    rw [if_neg (h a (List.mem_cons_self a rest))]
    exact ih (fun x hx => h x (List.mem_cons_of_mem _ hx)) best

/-- Amended claim C9: the binder leaves a note completely unchanged (same
pitch, no accidental recorded) whenever no accidental symbol in the input
lies strictly to the note's left with the boxes' *top y coordinates*
(`box[1]`, not the vertical centers) differing by less than 20 pixels: the
note passes through `apply_accidentals_to_notes` as the identical value. -/
theorem C9_amended (symbols : List Symbol) (s : Symbol) (hs : s ∈ symbols)
    (hacc : isAccCls s.cls = false)
    (hno : ∀ a ∈ symbols, isAccCls a.cls = true →
        ¬(a.box.x < s.box.x ∧ |a.box.y - s.box.y| < 20)) :
    resolveSymbol (symbols.filter fun a => isAccCls a.cls) s = s
    ∧ s ∈ apply_accidentals_to_notes symbols := by
  have hres : resolveSymbol (symbols.filter fun a => isAccCls a.cls) s = s := by
    unfold resolveSymbol bindNote
    have hcl : closestAccLoop s (symbols.filter fun a => isAccCls a.cls) none = none := by
      apply closestAccLoop_none
      intro a ha
      rw [List.mem_filter] at ha
      exact hno a ha.1 ha.2
    rw [hcl]
    split <;> rfl
  refine ⟨hres, ?_⟩
  unfold apply_accidentals_to_notes
  refine List.mem_map.mpr ⟨s, ?_, hres⟩
  rw [List.mem_filter]
  exact ⟨hs, by rw [hacc]; rfl⟩

/-- A lone quarter note, with no accidental anywhere in the input. -/
def c9wnote : Symbol := ⟨"quarter_note", 1, ⟨100, 100, 20, 25⟩, "E4", 1, none⟩

/-- Witness for C9: a lone note with no accidental passes through unchanged. -/
theorem C9_amended_witness :
    resolveSymbol ([c9wnote].filter fun a => isAccCls a.cls) c9wnote = c9wnote
    ∧ c9wnote ∈ apply_accidentals_to_notes [c9wnote] :=
  C9_amended [c9wnote] c9wnote (by with_unfolding_all decide) (by decide)
    (by with_unfolding_all decide)

/-! ## Claim C10 — every class containing 'note' is a note -/

/-- A sharp placed one pixel to the left of a symbol, at the same box top. -/
def nearSharp (s : Symbol) : Symbol :=
  ⟨"sharp", 1, ⟨s.box.x - 1, s.box.y, 10, 30⟩, "C4", 1, none⟩

/-- Claim C10: a detection of class id 45 (`grace_note`, absent from the
duration table) is treated as a note throughout: its class name contains
`'note'`, it receives a staff-derived pitch and the default duration of 1.0
beat, it participates in accidental binding (an eligible sharp binds to it),
and it yields exactly one note-on/note-off pair at the cursor with velocity
100 in the MIDI output. -/
theorem C10_grace_note (staff : List ℤ) (dets : List Detection) (d : Detection)
    (hid : d.classId = 45) (hmem : d ∈ dets) :
    (buildSymbol staff d).cls = "grace_note"
    ∧ pyIn "note" (buildSymbol staff d).cls = true
    ∧ (buildSymbol staff d).pitch
        = calculate_pitch_from_staff_position ((d.y1 + d.y2) / 2) staff
    ∧ (buildSymbol staff d).duration = 1
    ∧ buildSymbol staff d ∈ process_detections_enhanced dets staff
    ∧ generate_midi_events [buildSymbol staff d]
        = [⟨pitch_to_midi_number
              (calculate_pitch_from_staff_position ((d.y1 + d.y2) / 2) staff), 0, 1, 100⟩]
    ∧ (resolveSymbol [nearSharp (buildSymbol staff d)] (buildSymbol staff d)).accidental
        = some "sharp" := by
  have hnote : pyIn "note" "grace_note" = true := by decide
  have hb1 : (buildSymbol staff d).cls = "grace_note" := by
    simp [buildSymbol, hid, classNameOf]
  have hb2 : (buildSymbol staff d).pitch
      = calculate_pitch_from_staff_position ((d.y1 + d.y2) / 2) staff := by
    simp [buildSymbol, hid, classNameOf, hnote]
  have hb3 : (buildSymbol staff d).duration = 1 := by
    simp [buildSymbol, hid, classNameOf]
    decide
  refine ⟨hb1, by rw [hb1]; exact hnote, hb2, hb3, List.mem_map_of_mem _ hmem, ?_, ?_⟩
  · simp only [generate_midi_events, midiLoop, hb1, hnote, if_true, hb2, hb3]
  · have hfind : closestAccLoop (buildSymbol staff d)
        [nearSharp (buildSymbol staff d)] none
        = some ((buildSymbol staff d).box.x - (nearSharp (buildSymbol staff d)).box.x,
            nearSharp (buildSymbol staff d)) := by
      rw [closestAccLoop]
      rw [if_pos ⟨by simp only [nearSharp]; omega, by simp [nearSharp]⟩]
      rfl
    unfold resolveSymbol
    simp only [hb1, hnote, if_true]
    unfold bindNote
    rw [hfind]
    simp [applyAccidental, nearSharp]

/-- A concrete grace-note detection with box center y = 180. -/
def c10det : Detection := ⟨150, 170, 170, 190, 1, 45⟩

/-- Witness for C10: the grace-note behavior at a concrete detection on the
fallback staff. -/
theorem C10_grace_note_witness :
    (buildSymbol fallbackStaff c10det).cls = "grace_note"
    ∧ pyIn "note" (buildSymbol fallbackStaff c10det).cls = true
    ∧ (buildSymbol fallbackStaff c10det).pitch
        = calculate_pitch_from_staff_position ((c10det.y1 + c10det.y2) / 2) fallbackStaff
    ∧ (buildSymbol fallbackStaff c10det).duration = 1
    ∧ buildSymbol fallbackStaff c10det ∈ process_detections_enhanced [c10det] fallbackStaff
    ∧ generate_midi_events [buildSymbol fallbackStaff c10det]
        = [⟨pitch_to_midi_number
              (calculate_pitch_from_staff_position
                ((c10det.y1 + c10det.y2) / 2) fallbackStaff), 0, 1, 100⟩]
    ∧ (resolveSymbol [nearSharp (buildSymbol fallbackStaff c10det)]
          (buildSymbol fallbackStaff c10det)).accidental = some "sharp" :=
  C10_grace_note fallbackStaff [c10det] c10det rfl (by with_unfolding_all decide)

/-! ## Claim C1 — measures partition the non-bar symbols

Infrastructure: permutation and sortedness of the insertion sort, the union
of the loop's half-open intervals, and a split lemma for filters of a sorted
list. -/

/-- Inserting permutes: `insertLe le a l` is `a :: l` up to order. -/
theorem insertLe_perm (le : α → α → Bool) (a : α) :
    ∀ l : List α, (insertLe le a l).Perm (a :: l) := by
  intro l
  induction l with
  | nil => exact List.Perm.refl _
  | cons b t ih =>
    rw [insertLe]
    by_cases h : le a b = true
    · rw [if_pos h]
    · rw [if_neg h]
      exact (List.Perm.cons b ih).trans (List.Perm.swap a b t)

/-- The insertion sort permutes its input. -/
theorem sortLe_perm (le : α → α → Bool) :
    ∀ l : List α, (sortLe le l).Perm l := by
  intro l
  induction l with
  | nil => exact List.Perm.refl _
  | cons a t ih => exact (insertLe_perm le a (sortLe le t)).trans (List.Perm.cons a ih)

/-- Membership after insertion. -/
theorem mem_insertLe (le : α → α → Bool) (a y : α) (l : List α)
    (h : y ∈ insertLe le a l) : y = a ∨ y ∈ l := by
  have := (insertLe_perm le a l).mem_iff.mp h
  simpa using this

/-- Inserting into a `le`-sorted list keeps it sorted, for a total and
transitive comparison. -/
theorem pairwise_insertLe (le : α → α → Bool)
    (htot : ∀ a b, le a b = false → le b a = true)
    (htrans : ∀ a b c, le a b = true → le b c = true → le a c = true)
    (a : α) : ∀ l : List α, (l.Pairwise fun x y => le x y = true) →
    (insertLe le a l).Pairwise fun x y => le x y = true := by
  intro l
  induction l with
  | nil => intro _; exact List.pairwise_singleton _ a
  | cons b t ih =>
    intro h
    rcases List.pairwise_cons.mp h with ⟨hb, ht⟩
    rw [insertLe]
    by_cases hab : le a b = true
    · rw [if_pos hab]
      refine List.pairwise_cons.mpr ⟨?_, h⟩
      intro y hy
      rcases List.mem_cons.mp hy with rfl | hy
      · exact hab
      · exact htrans a b y hab (hb y hy)
    · rw [if_neg hab]
      have hab' : le a b = false := by revert hab; cases le a b <;> simp
      refine List.pairwise_cons.mpr ⟨?_, ih ht⟩
      intro y hy
      rcases mem_insertLe le a y t hy with rfl | hy'
      · exact htot _ _ hab'
      · exact hb y hy'

/-- The insertion sort sorts, for a total and transitive comparison. -/
theorem sortLe_pairwise (le : α → α → Bool)
    (htot : ∀ a b, le a b = false → le b a = true)
    (htrans : ∀ a b c, le a b = true → le b c = true → le a c = true) :
    ∀ l : List α, (sortLe le l).Pairwise fun x y => le x y = true := by
  intro l
  induction l with
  | nil => exact List.Pairwise.nil
  | cons a t ih => exact pairwise_insertLe le htot htrans a (sortLe le t) ih

/-- The sorted symbol list is a permutation of the input. -/
theorem sortSyms_perm (symbols : List Symbol) : (sortSyms symbols).Perm symbols :=
  sortLe_perm _ symbols

/-- The sorted symbol list is nondecreasing in `box.x`. -/
theorem sortSyms_sorted (symbols : List Symbol) :
    (sortSyms symbols).Pairwise fun a b => a.box.x ≤ b.box.x := by
  have h := sortLe_pairwise (fun a b : Symbol => decide (a.box.x ≤ b.box.x))
    (by intro a b h; simp at h ⊢; omega)
    (by intro a b c h1 h2; simp at h1 h2 ⊢; omega)
    symbols
  exact h.imp fun hd => of_decide_eq_true hd

/-- Over the class names that can actually occur, the loop's substring test
`'bar_line' in class` agrees with the bar-line membership test used to
collect the delimiters. -/
theorem pyIn_barline_eq : ∀ c ∈ validClassNames, pyIn "bar_line" c = isBarMem c := by
  decide

/-- The union of the loop's half-open intervals `[start, b1) ∪ [b1, b2) ∪ …`
as a predicate on an x coordinate. -/
def intervalUnion : ℤ → List ℤ → ℤ → Bool
  | _, [], _ => false
  | start, b :: rest, x =>
    (decide (start ≤ x) && decide (x < b)) || intervalUnion b rest x

/-- A coordinate in the union is at least the initial bound, when the bounds
are nondecreasing and at least the initial bound. -/
theorem intervalUnion_ge :
    ∀ (xs : List ℤ) (start x : ℤ), (∀ b ∈ xs, start ≤ b) →
      xs.Pairwise (fun a b => a ≤ b) →
      intervalUnion start xs x = true → start ≤ x := by
  intro xs
  induction xs with
  | nil => intro start x _ _ h; simp [intervalUnion] at h
  | cons b rest ih =>
    intro start x hall hp h
    rcases List.pairwise_cons.mp hp with ⟨hb, hrest⟩
    rw [intervalUnion, Bool.or_eq_true] at h
    rcases h with h | h
    · rw [Bool.and_eq_true, decide_eq_true_eq, decide_eq_true_eq] at h
      exact h.1
    · have hsb : start ≤ b := hall b (List.mem_cons_self b rest)
      have hx : b ≤ x := ih b x hb hrest h
      exact le_trans hsb hx

/-- A coordinate in the union is strictly below the last bound, when the
bounds are nondecreasing. -/
theorem intervalUnion_lt_last :
    ∀ (xs : List ℤ) (start x m : ℤ), xs.Pairwise (fun a b => a ≤ b) →
      xs.getLast? = some m → intervalUnion start xs x = true → x < m := by
  intro xs
  induction xs with
  | nil => intro start x m _ hm _; simp at hm
  | cons b rest ih =>
    intro start x m hp hm h
    rcases List.pairwise_cons.mp hp with ⟨hb, hrest⟩
    rw [intervalUnion, Bool.or_eq_true] at h
    cases rest with
    | nil =>
      have hmb : b = m := by simpa using hm
      rcases h with h | h
      · rw [Bool.and_eq_true, decide_eq_true_eq, decide_eq_true_eq] at h
        omega
      · simp [intervalUnion] at h
    | cons c rest' =>
      have hm' : (c :: rest').getLast? = some m := by
        rw [← hm]; rfl
      rcases h with h | h
      · rw [Bool.and_eq_true, decide_eq_true_eq, decide_eq_true_eq] at h
        have : b ≤ m := hb m (List.mem_of_mem_getLast? hm')
        omega
      · exact ih b x m hrest hm' h

/-- On coordinates at least the initial bound, membership in the union is
exactly being strictly below the last bound. -/
theorem intervalUnion_eq :
    ∀ (xs : List ℤ) (start x m : ℤ), start ≤ x →
      xs.Pairwise (fun a b => a ≤ b) → xs.getLast? = some m →
      intervalUnion start xs x = decide (x < m) := by
  intro xs
  induction xs with
  | nil => intro start x m _ _ hm; simp at hm
  | cons b rest ih =>
    intro start x m hstart hp hm
    rcases List.pairwise_cons.mp hp with ⟨hb, hrest⟩
    cases rest with
    | nil =>
      have hmb : b = m := by simpa using hm
      subst hmb
      rw [intervalUnion]
      simp [intervalUnion, hstart]
    | cons c rest' =>
      have hm' : (c :: rest').getLast? = some m := by
        rw [← hm]; rfl
      rw [intervalUnion]
      by_cases hxb : x < b
      · have hbm : b ≤ m := hb m (List.mem_of_mem_getLast? hm')
        have h1 : (decide (start ≤ x) && decide (x < b)) = true := by
          simp [hstart, hxb]
        rw [h1]
        simp only [Bool.true_or]
        have : x < m := lt_of_lt_of_le hxb hbm
        simp [this]
      · have h1 : (decide (start ≤ x) && decide (x < b)) = false := by
          simp [hxb]
        rw [h1]
        simp only [Bool.false_or]
        exact ih b x m (by omega) hrest hm'

/-- Splitting a filter of an x-sorted symbol list at a cut `c`: when `p` only
holds below `c` and `q` only holds at or above `c`, filtering by `p` and then
by `q` concatenates to filtering by their disjunction. -/
theorem filter_append_filter_sorted {p q : Symbol → Bool} (c : ℤ)
    (hp : ∀ s, p s = true → s.box.x < c) (hq : ∀ s, q s = true → c ≤ s.box.x) :
    ∀ ss : List Symbol, ss.Pairwise (fun a b => a.box.x ≤ b.box.x) →
      ss.filter p ++ ss.filter q = ss.filter fun s => p s || q s := by
  intro ss
  induction ss with
  | nil => intro _; rfl
  | cons a t ih =>
    intro hss
    rcases List.pairwise_cons.mp hss with ⟨ha, ht⟩
    by_cases hpa : p a = true
    · have hqa : q a = false := by
        cases hq0 : q a
        · rfl
        · exact absurd (hq a hq0) (by have := hp a hpa; omega)
      simp only [List.filter_cons, hpa, if_true, hqa, Bool.false_eq_true, if_false,
        Bool.true_or, List.cons_append]
      rw [ih ht]
    · have hpa' : p a = false := by revert hpa; cases p a <;> simp
      by_cases hqa : q a = true
      · have hca : c ≤ a.box.x := hq a hqa
        have hpt : ∀ b ∈ t, p b = false := by
          intro b hb
          cases hp0 : p b
          · rfl
          · exact absurd (hp b hp0) (by have := ha b hb; omega)
        have hptnil : t.filter p = [] := List.filter_eq_nil_iff.mpr
          (fun b hb => by rw [hpt b hb]; simp)
        simp only [List.filter_cons, hpa', Bool.false_eq_true, if_false, hqa, if_true,
          Bool.false_or, hptnil, List.nil_append]
        have : t.filter q = t.filter fun s => p s || q s :=
          List.filter_congr fun b hb => by rw [hpt b hb]; simp
        rw [this]
      · have hqa' : q a = false := by revert hqa; cases q a <;> simp
        simp only [List.filter_cons, hpa', hqa', Bool.false_eq_true, if_false,
          Bool.false_or]
        rw [ih ht]

/-- The concatenation of the bar-line loop's measures is the filter of the
sorted symbols by the union of its half-open intervals (and not being a bar
line). -/
theorem flatten_measureLoop (ss : List Symbol)
    (hss : ss.Pairwise fun a b => a.box.x ≤ b.box.x) :
    ∀ (xs : List ℤ) (start : ℤ), xs.Pairwise (fun a b => a ≤ b) →
      (∀ b ∈ xs, start ≤ b) →
      (measureLoop ss start xs).flatten
        = ss.filter fun s =>
            !(pyIn "bar_line" s.cls) && intervalUnion start xs s.box.x := by
  intro xs
  induction xs with
  | nil =>
    intro start _ _
    simp [measureLoop, intervalUnion]
  | cons bx rest ih =>
    intro start hp hall
    rcases List.pairwise_cons.mp hp with ⟨hbx, hrest⟩
    rw [measureLoop, List.flatten_append]
    have hflat1 :
        ((if ss.filter (fun s =>
              (decide (start ≤ s.box.x) && decide (s.box.x < bx)) && !(pyIn "bar_line" s.cls)) = []
          then ([] : List (List Symbol))
          else [ss.filter fun s =>
              (decide (start ≤ s.box.x) && decide (s.box.x < bx)) && !(pyIn "bar_line" s.cls)])).flatten
          = ss.filter fun s =>
              (decide (start ≤ s.box.x) && decide (s.box.x < bx)) && !(pyIn "bar_line" s.cls) := by
      split
      · rename_i hnil
        rw [hnil]; rfl
      · simp
    rw [hflat1, ih bx hrest hbx]
    rw [filter_append_filter_sorted bx
      (p := fun s => (decide (start ≤ s.box.x) && decide (s.box.x < bx)) && !(pyIn "bar_line" s.cls))
      (q := fun s => !(pyIn "bar_line" s.cls) && intervalUnion bx rest s.box.x)
      (by
        intro s h
        rw [Bool.and_eq_true, Bool.and_eq_true, decide_eq_true_eq, decide_eq_true_eq] at h
        exact h.1.2)
      (by
        intro s h
        rw [Bool.and_eq_true] at h
        exact intervalUnion_ge rest bx s.box.x hbx hrest h.2)
      ss hss]
    refine List.filter_congr fun s _ => ?_
    rw [intervalUnion]
    cases pyIn "bar_line" s.cls <;>
      cases hd1 : decide (start ≤ s.box.x) <;>
      cases hd2 : decide (s.box.x < bx) <;>
      cases hu : intervalUnion bx rest s.box.x <;>
      simp [hd1, hd2, hu]

/-- The x coordinate of the last bar-line symbol of the sorted stream, when
one exists. -/
def lastBarXOf (symbols : List Symbol) : Option ℤ :=
  (((sortSyms symbols).filter fun s => isBarMem s.cls).getLast?).map fun s => s.box.x

/-- Amended claim C1: restricted to inputs whose class names come from the
47-entry table (plus `'unknown'`) and whose box x coordinates are
nonnegative, the measures partition all non-bar-line symbols *except those
whose x equals the last bar line's x*: concatenating the measures in order
reproduces the x-sorted symbol sequence with bar-line symbols removed and
with the symbols sitting exactly at the last bar line's x coordinate dropped
(such a symbol lands in no measure; when no bar line exists nothing is
dropped and the single measure is the whole sorted sequence). -/
theorem C1_amended (symbols : List Symbol) (staffArg : List (List ℤ))
    (hcls : ∀ s ∈ symbols, s.cls ∈ validClassNames)
    (hx : ∀ s ∈ symbols, 0 ≤ s.box.x) :
    (group_symbols_by_measure symbols staffArg).flatten
      = (sortSyms symbols).filter fun s =>
          !(isBarMem s.cls) && decide (some s.box.x ≠ lastBarXOf symbols) := by
  have hss : (sortSyms symbols).Pairwise fun a b => a.box.x ≤ b.box.x :=
    sortSyms_sorted symbols
  have hmem : ∀ s ∈ sortSyms symbols, s ∈ symbols :=
    fun s hs => (sortSyms_perm symbols).mem_iff.mp hs
  have hpyeq : ∀ s ∈ sortSyms symbols, pyIn "bar_line" s.cls = isBarMem s.cls :=
    fun s hs => pyIn_barline_eq s.cls (hcls s (hmem s hs))
  have hxss : ∀ s ∈ sortSyms symbols, 0 ≤ s.box.x := fun s hs => hx s (hmem s hs)
  rw [group_symbols_by_measure]
  cases hlast : ((sortSyms symbols).filter fun s => isBarMem s.cls).getLast? with
  | none =>
    have hbarnil : (sortSyms symbols).filter (fun s => isBarMem s.cls) = [] :=
      List.getLast?_eq_none_iff.mp hlast
    have hnobar : ∀ s ∈ sortSyms symbols, isBarMem s.cls = false := by
      intro s hs
      cases hb : isBarMem s.cls
      · rfl
      · exact absurd (List.mem_filter.mpr ⟨hs, hb⟩) (by rw [hbarnil]; simp)
    have hlx : lastBarXOf symbols = none := by
      rw [lastBarXOf, hlast]; rfl
    rw [hlx]
    have : ((sortSyms symbols).filter fun s =>
        !(isBarMem s.cls) && decide (some s.box.x ≠ (none : Option ℤ)))
        = sortSyms symbols :=
      List.filter_eq_self.mpr fun s hs => by rw [hnobar s hs]; simp
    rw [this]
    simp
  | some lb =>
    have hlbmem : lb ∈ (sortSyms symbols).filter fun s => isBarMem s.cls :=
      List.mem_of_mem_getLast? hlast
    have hlx : lastBarXOf symbols = some lb.box.x := by
      rw [lastBarXOf, hlast]; rfl
    have hbars_sorted :
        (((sortSyms symbols).filter fun s => isBarMem s.cls).map fun s => s.box.x).Pairwise
          (fun a b => a ≤ b) :=
      List.pairwise_map.mpr ((hss.filter _).imp fun hd => hd)
    have hbars_last :
        (((sortSyms symbols).filter fun s => isBarMem s.cls).map fun s => s.box.x).getLast?
          = some lb.box.x := by
      rw [List.getLast?_map, hlast]; rfl
    have hbars_nonneg :
        ∀ b ∈ ((sortSyms symbols).filter fun s => isBarMem s.cls).map fun s => s.box.x,
          0 ≤ b := by
      intro b hb
      rcases List.mem_map.mp hb with ⟨t, ht, rfl⟩
      exact hxss t (List.mem_filter.mp ht).1
    rw [List.flatten_append]
    rw [flatten_measureLoop (sortSyms symbols) hss _ 0 hbars_sorted hbars_nonneg]
    have hflat2 :
        ((if (sortSyms symbols).filter (fun s =>
              decide (lb.box.x < s.box.x) && !(pyIn "bar_line" s.cls)) = []
          then ([] : List (List Symbol))
          else [(sortSyms symbols).filter fun s =>
              decide (lb.box.x < s.box.x) && !(pyIn "bar_line" s.cls)])).flatten
          = (sortSyms symbols).filter fun s =>
              decide (lb.box.x < s.box.x) && !(pyIn "bar_line" s.cls) := by
      split
      · rename_i hnil
        rw [hnil]; rfl
      · simp
    rw [hflat2]
    rw [filter_append_filter_sorted lb.box.x
      (p := fun s => !(pyIn "bar_line" s.cls)
        && intervalUnion 0 (((sortSyms symbols).filter fun s => isBarMem s.cls).map
            fun s => s.box.x) s.box.x)
      (q := fun s => decide (lb.box.x < s.box.x) && !(pyIn "bar_line" s.cls))
      (by
        intro s h
        rw [Bool.and_eq_true] at h
        exact intervalUnion_lt_last _ 0 s.box.x lb.box.x hbars_sorted hbars_last h.2)
      (by
        intro s h
        rw [Bool.and_eq_true, decide_eq_true_eq] at h
        omega)
      (sortSyms symbols) hss]
    refine List.filter_congr fun s hs => ?_
    rw [hpyeq s hs]
    rw [intervalUnion_eq _ 0 s.box.x lb.box.x (hxss s hs) hbars_sorted hbars_last]
    rw [hlx]
    have hdec : (decide (s.box.x < lb.box.x) || decide (lb.box.x < s.box.x))
        = decide (some s.box.x ≠ some lb.box.x) := by
      by_cases h : s.box.x = lb.box.x
      · simp [h]
      · have h1 : s.box.x < lb.box.x ∨ lb.box.x < s.box.x := by omega
        rcases h1 with h1 | h1 <;> simp [h, h1]
    cases isBarMem s.cls <;>
      cases hd1 : decide (s.box.x < lb.box.x) <;>
      cases hd2 : decide (lb.box.x < s.box.x) <;>
      simp_all

/-- A quarter note whose x coordinate equals the bar line's x. -/
def c1note : Symbol := ⟨"quarter_note", 1, ⟨10, 50, 20, 25⟩, "E4", 1, none⟩

/-- A bar line at x = 10. -/
def c1bar : Symbol := ⟨"bar_line", 1, ⟨10, 0, 2, 100⟩, "C4", 1, none⟩

/-- Claim C1 is false on the code: a non-bar-line symbol whose x equals the
last bar line's x lands in *zero* measures (the loop interval requires
`x < bar_x` and the final interval requires `x > bar_x`), so concatenating
the measures does not reproduce the sorted sequence minus bar lines. -/
theorem C1_counterexample :
    (!(isBarMem c1note.cls)) = true
    ∧ group_symbols_by_measure [c1note, c1bar] [] = []
    ∧ (sortSyms [c1note, c1bar]).filter (fun s => !(isBarMem s.cls)) = [c1note]
    ∧ (group_symbols_by_measure [c1note, c1bar] []).flatten
        ≠ (sortSyms [c1note, c1bar]).filter fun s => !(isBarMem s.cls) := by
  with_unfolding_all decide

/-- A mixed input: note, bar line, note, with distinct x coordinates. -/
def c1wit : List Symbol :=
  [⟨"quarter_note", 1, ⟨150, 180, 20, 25⟩, "E4", 1, none⟩,
   ⟨"bar_line", 1, ⟨180, 0, 2, 100⟩, "C4", 1, none⟩,
   ⟨"half_note", 1, ⟨200, 160, 20, 25⟩, "G4", 2, none⟩]

/-- Witness for C1: the amended partition equality at a concrete input with
one bar line separating two notes. -/
theorem C1_amended_witness :
    (group_symbols_by_measure c1wit []).flatten
      = (sortSyms c1wit).filter fun s =>
          !(isBarMem s.cls) && decide (some s.box.x ≠ lastBarXOf c1wit) :=
  C1_amended c1wit [] (by with_unfolding_all decide) (by with_unfolding_all decide)

end EnsembleV1
